import Mathlib

/-!
Verification of the spark-fs storage engine (`src/fs.rs`, `src/path.rs`)
against its natural-language specification.

Shallow embedding conventions:
* machine bytes and `u32` values are `Nat` with explicit `% 256` / masking
  where the source truncates;
* Rust arrays indexed by integers become total functions `Nat → Bool` /
  `Nat → Nat`, with explicit bound checks where the source would panic on an
  out-of-bounds index;
* fallible code returns `Option` or `Except`;
* the backing byte stream (`storage`) is modelled by the trace of the calls
  the code makes on it (`writeall` / `seek`), since the stream trait is an
  external collaborator of the core.
-/

namespace SparkFS

/-! ## Constants (from `src/fs.rs` and `src/path.rs`) -/

def SECTOR_SIZE : Nat := 4096

def FD_MAGIC_NUMBER : Nat := 0xC4

def MAX_SECTORS : Nat := 1048576

def U32_MAX : Nat := 4294967295

def MAX_OPEN_FILES : Nat := 128

def MAX_PATH_LENGTH : Nat := 255

/-! ## Path (`src/path.rs`) -/

/-- `Path`: a fixed-width (`MAX_PATH_LENGTH`) NUL-padded ASCII buffer.
The fixed Rust array `[u8; MAX_PATH_LENGTH]` is modelled as the list of its
bytes; constructors produce lists of length `MAX_PATH_LENGTH`. -/
structure Path where
  buf : List Nat
deriving DecidableEq

/-- `Path::from_ascii_str`: accepts the byte slice iff it is at most
`MAX_PATH_LENGTH` bytes and contains no zero byte; copies it into a
zero-initialised fixed buffer. -/
def Path.from_ascii_str (path : List Nat) : Option Path :=
  if path.length ≤ MAX_PATH_LENGTH && path.all (fun c => c != 0) then
    some ⟨path ++ List.replicate (MAX_PATH_LENGTH - path.length) 0⟩
  else
    none

/-- `Path::as_slice`: returns the bytes before the first zero byte, or the
whole buffer when no byte is zero. -/
def Path.as_slice (p : Path) : List Nat :=
  p.buf.takeWhile (fun c => c != 0)

/-- `Path::raw_buf`: the whole fixed-width buffer. -/
def Path.raw_buf (p : Path) : List Nat :=
  p.buf

/-! ## u32 byte transforms (`src/fs.rs` lines 331-345) -/

/-- `transform_u32_to_array_of_u8`: big-endian byte decomposition
(`(x >> k) & 0xff` written as `% 256` on `Nat`). -/
def transform_u32_to_array_of_u8 (x : Nat) : List Nat :=
  [(x >>> 24) % 256, (x >>> 16) % 256, (x >>> 8) % 256, x % 256]

/-- `transform_array_of_u8_to_u32`, exactly as in the source: the partial
results are combined with bitwise AND (`&`), not OR. -/
def transform_array_of_u8_to_u32 (x : List Nat) : Nat :=
  let y := (x.getD 0 0) <<< 24
  let y := y &&& ((x.getD 1 0) <<< 16)
  let y := y &&& ((x.getD 2 0) <<< 8)
  y &&& (x.getD 3 0)

/-! ## File descriptor data model (`src/fs.rs` lines 16-66) -/

/-- `FileType` with its `repr(u8)` discriminants `folder = 0`, `exec = 1`,
`default = 2`, `error = 3`. -/
inductive FileType
  | folder
  | exec
  | default
  | error
deriving DecidableEq

/-- `FileType as u8`. -/
def FileType.toByte : FileType → Nat
  | .folder => 0
  | .exec => 1
  | .default => 2
  | .error => 3

/-- `FileFlag` with its `repr(u8)` discriminants `special = 0`,
`readonly = 1`, `readwrite = 2`, `error = 3`. -/
inductive FileFlag
  | special
  | readonly
  | readwrite
  | error
deriving DecidableEq

/-- `FileFlag as u8`. -/
def FileFlag.toByte : FileFlag → Nat
  | .special => 0
  | .readonly => 1
  | .readwrite => 2
  | .error => 3

/-- `OpenMode` (`read`, `readwrite`, `write`, `append`, `overwrite`,
`error`). -/
inductive OpenMode
  | read
  | readwrite
  | write
  | append
  | overwrite
  | error
deriving DecidableEq

/-- `FileDescriptor`: type, flag, fixed-width name, active lock count and
write-lock bit. -/
structure FileDescriptor where
  filetype : FileType
  fileflag : FileFlag
  filename : Path
  active_locks : Nat
  writelock : Bool
deriving DecidableEq

/-! ## Header codec (`create_fd`, `write_header`, `read_header`) -/

/-- The record body written by `create_fd` (and, after the 4-byte chain
pointer, by `write_header`): magic byte, type byte, flag byte, a zero
reserved byte, then the raw fixed-width name buffer.  Neither an end
position nor the write-lock bit is written. -/
def create_fd_record (ftype : FileType) (fflag : FileFlag) (name : Path) :
    List Nat :=
  FD_MAGIC_NUMBER :: ftype.toByte :: fflag.toByte :: 0 :: name.raw_buf

/-- The record `write_header` would write for a descriptor: `write_header`
passes the descriptor's type, flag and name to the same byte layout as
`create_fd` and always writes `0` for the reserved byte. -/
def encode_fd (d : FileDescriptor) : List Nat :=
  create_fd_record d.filetype d.fileflag d.filename

/-- Type byte recognition in `read_header` (compared against `folder`,
`exec`, `default` in that order; anything else is a corrupt header). -/
def byteToFileType (b : Nat) : Option FileType :=
  if b = FileType.folder.toByte then some .folder
  else if b = FileType.exec.toByte then some .exec
  else if b = FileType.default.toByte then some .default
  else none

/-- Flag byte recognition in `read_header` (compared against `readwrite`,
`readonly`, `special` in that order; anything else is a corrupt header). -/
def byteToFileFlag (b : Nat) : Option FileFlag :=
  if b = FileFlag.readwrite.toByte then some .readwrite
  else if b = FileFlag.readonly.toByte then some .readonly
  else if b = FileFlag.special.toByte then some .special
  else none

/-- The fields `read_header` actually constructs: type, flag, the raw name
bytes, and an active-lock count taken from the fourth record byte.  The
source constructs no write-lock value and reads no end position. -/
structure DecodedHeader where
  filetype : FileType
  fileflag : FileFlag
  filename : List Nat
  active_locks : Nat
deriving DecidableEq

/-- `read_header`, reading from the byte stream at the current position:
one magic byte (corrupt if not `FD_MAGIC_NUMBER`), one type byte, one flag
byte, one byte used as the active-lock count, then `MAX_PATH_LENGTH` name
bytes.  The source's distinct error kinds are collapsed to `none`. -/
def read_header (input : List Nat) : Option DecodedHeader :=
  match input with
  | magic :: tb :: fb :: rb :: rest =>
    if magic = FD_MAGIC_NUMBER then
      match byteToFileType tb, byteToFileFlag fb with
      | some ft, some ff =>
        if MAX_PATH_LENGTH ≤ rest.length then
          some ⟨ft, ff, rest.take MAX_PATH_LENGTH, rb⟩
        else none
      | _, _ => none
    else none
  | _ => none

/-! ## Open-file lock admission (`open_file`, lines 186-229) -/

/-- Error messages produced by `open_file`. -/
inductive OpenErr
  | alreadyOpenForWriting
  | alreadyOpenForReading
deriving DecidableEq

/-- The lock-admission core of `open_file`, acting on the descriptor read
from the file's sector.  `none` models the fact that the source `match`
has no arm for `append`, `overwrite` or `error`. -/
def open_file_locks (mode : OpenMode) (descr : FileDescriptor) :
    Option (Except OpenErr FileDescriptor) :=
  match mode with
  | .read =>
      if !descr.writelock then
        some (.ok { descr with active_locks := descr.active_locks + 1 })
      else
        some (.error .alreadyOpenForWriting)
  | .readwrite =>
      if descr.writelock then some (.error .alreadyOpenForWriting)
      else if descr.active_locks > 0 then
        some (.error .alreadyOpenForReading)
      else
        some (.ok { descr with
          active_locks := descr.active_locks + 1, writelock := true })
  | .write =>
      if descr.writelock then some (.error .alreadyOpenForWriting)
      else if descr.active_locks > 0 then
        some (.error .alreadyOpenForReading)
      else
        some (.ok { descr with writelock := true })
  | _ => none

/-- The all-zero path buffer, as produced by `Path::from_ascii_str(b"")`. -/
def emptyPath : Path :=
  ⟨List.replicate MAX_PATH_LENGTH 0⟩

/-! ## Close and the single-path lock protocol (`close`, lines 458-468) -/

/-- Write-acquired modes (`Write`, `ReadWrite`, `Append`): the handles for
which `close` takes the `unlock_write` branch (the handle's `writing`
flag). -/
def writerMode : OpenMode → Bool
  | .readwrite | .write | .append => true
  | _ => false

/-- Reader handles (`Read`). -/
def readerMode : OpenMode → Bool
  | .read => true
  | _ => false

/-- `ReadWrite` handles: they also hold an `active_locks` reader lock. -/
def rwMode : OpenMode → Bool
  | .readwrite => true
  | _ => false

/-- Modelled from the spec: `FileHeader::unlock_read` and
`FileHeader::unlock_write`, which `close` dispatches to, are not in the
sources (only `close`'s `writing` dispatch is); per spec §4.3 close
decrements `active_readers` for a read-acquired handle and clears
`write_locked` for a write-acquired handle. -/
def close_locks (m : OpenMode) (d : FileDescriptor) : FileDescriptor :=
  if writerMode m then { d with writelock := false }
  else { d with active_locks := d.active_locks - 1 }

/-- The lock-relevant state of one path: the descriptor's lock fields plus
the open modes of the outstanding handles on it. -/
structure FsState where
  descr : FileDescriptor
  handles : List OpenMode

/-- One step of the open/close protocol on a single path: a successful
`open_file` admission adds a handle carrying its mode and installs the
updated descriptor; `close` removes an outstanding handle and releases its
lock as in the source's `close`. -/
inductive FsStep : FsState → FsState → Prop
  | open_ok (s : FsState) (m : OpenMode) (d' : FileDescriptor)
      (h : open_file_locks m s.descr = some (Except.ok d')) :
      FsStep s ⟨d', m :: s.handles⟩
  | close (s : FsState) (m : OpenMode) (pre post : List OpenMode)
      (h : s.handles = pre ++ m :: post) :
      FsStep s ⟨close_locks m s.descr, pre ++ post⟩

/-- Number of outstanding writer (`Write`/`ReadWrite`/`Append`) handles. -/
def countW (hs : List OpenMode) : Nat :=
  hs.countP writerMode

/-- Number of outstanding `Read` handles. -/
def countR (hs : List OpenMode) : Nat :=
  hs.countP readerMode

/-- Number of outstanding `ReadWrite` handles. -/
def countRW (hs : List OpenMode) : Nat :=
  hs.countP rwMode

/-- Inductive invariant of the lock protocol: at most one writer handle;
the write-lock bit tracks exactly whether a writer is outstanding; the
lock counter dominates the reader-lock holders; readers and writers never
coexist; and only `Read`/`ReadWrite`/`Write` handles ever exist (the other
modes are never admitted). -/
def LockInv (s : FsState) : Prop :=
  countW s.handles ≤ 1 ∧
    (s.descr.writelock = true ↔ countW s.handles = 1) ∧
    countR s.handles + countRW s.handles ≤ s.descr.active_locks ∧
    (countW s.handles = 1 → countR s.handles = 0) ∧
    (∀ m ∈ s.handles,
      m = OpenMode.read ∨ m = OpenMode.readwrite ∨ m = OpenMode.write)

/-- A fresh descriptor for the lock-protocol witness. -/
def wDescr0 : FileDescriptor :=
  ⟨FileType.folder, FileFlag.special, emptyPath, 0, false⟩

/-- `wDescr0` after a successful `Write` open. -/
def wDescr1 : FileDescriptor :=
  ⟨FileType.folder, FileFlag.special, emptyPath, 0, true⟩

/-! ## Sector allocator (`get_valid_sector`, lines 296-306) -/

/-- The scanning loop of `get_valid_sector`:
`while (i < MAX_SECTORS && i < self.capacity / SECTOR_SIZE)`, returning the
first index whose in-use bit is clear. -/
def gvsScan (sectors : Nat → Bool) (capacity : Nat) (i : Nat) : Option Nat :=
  if h : i < MAX_SECTORS ∧ i < capacity / SECTOR_SIZE then
    if sectors i then gvsScan sectors capacity (i + 1) else some i
  else none
termination_by min MAX_SECTORS (capacity / SECTOR_SIZE) - i
decreasing_by
  have := Nat.lt_min.2 h
  omega

/-- `get_valid_sector`: scan for the first free sector index, mark it in
use, and return it; out of space when the scan finds none. -/
def get_valid_sector (sectors : Nat → Bool) (capacity : Nat) :
    Option (Nat × (Nat → Bool)) :=
  match gvsScan sectors capacity 0 with
  | some i => some (i, fun j => if j = i then true else sectors j)
  | none => none

/-- A concrete allocator state for witnesses: only sector 0 in use. -/
def sectors0 : Nat → Bool :=
  fun j => j == 0

/-- `sectors0` after allocating sector 1. -/
def sectors0' : Nat → Bool :=
  fun j => if j = 1 then true else sectors0 j

/-! ## Sector-chain writes (`write_auto` and helpers, lines 277-329) -/

/-- One observable call on the backing byte stream. -/
inductive Ev
  | write (pos : Nat) (bytes : List Nat)
  | seek (pos : Nat)
deriving DecidableEq

/-- The write-path state: the allocator bitmap and capacity, the current
sector and cursor (`current_position`), the stream's seek position, and
the trace of stream calls made so far. -/
structure WState where
  sectors : Nat → Bool
  capacity : Nat
  current_sector : Nat
  current_position : Nat
  seek_pos : Nat
  log : List Ev

/-- `storage.writeall(bytes)`: writes at the stream position and advances
it. -/
def writeall (s : WState) (bytes : List Nat) : WState :=
  { s with seek_pos := s.seek_pos + bytes.length,
           log := s.log ++ [Ev.write s.seek_pos bytes] }

/-- `storage.seek(SeekFrom::Start(pos))`. -/
def seekTo (s : WState) (pos : Nat) : WState :=
  { s with seek_pos := pos, log := s.log ++ [Ev.seek pos] }

/-- `write_shorthead(x)`: advance the cursor by 4, then write the 4-byte
big-endian encoding of `x` at the stream position. -/
def write_shorthead (s : WState) (x : Nat) : WState :=
  writeall { s with current_position := s.current_position + 4 }
    (transform_u32_to_array_of_u8 x)

/-- `write_auto(buf)`: if the buffer does not fit in the space left in the
current sector, write the prefix that fits, seek to the start of the
current sector, allocate a new sector, write its index as the current
sector's chain pointer, move cursor and stream to the start of the new
sector and recurse on the rest; otherwise write the whole buffer and
advance the cursor.  The source ignores the allocator's error; the `?` it
needs is modelled as `Option` propagation. -/
def write_auto (s : WState) (buf : List Nat) : Option WState :=
  if h : SECTOR_SIZE - s.current_position % SECTOR_SIZE < buf.length then
    let rem := SECTOR_SIZE - s.current_position % SECTOR_SIZE
    let buf1 := buf.drop rem
    let s1 := writeall s (buf.take rem)
    let s2 := seekTo s1 (s1.current_sector * SECTOR_SIZE)
    let s3 := { s2 with current_position := s2.current_sector * SECTOR_SIZE }
    match get_valid_sector s3.sectors s3.capacity with
    | none => none
    | some (ns, sectors1) =>
      let s4 := write_shorthead { s3 with sectors := sectors1 } ns
      let s5 := { s4 with current_sector := ns,
                          current_position := ns * SECTOR_SIZE }
      let s6 := seekTo s5 (s5.current_position)
      write_auto s6 buf1
  else
    let s1 := writeall s buf
    some { s1 with current_position := s1.current_position + buf.length }
termination_by buf.length
decreasing_by
  have hm : s.current_position % SECTOR_SIZE < SECTOR_SIZE :=
    Nat.mod_lt _ (by decide)
  simp only [List.length_drop]
  omega

/-- The trace of stream calls described by the specification of
`write_auto`, word for word: when the buffer exceeds the space left in the
current sector, write the prefix that fits at the cursor, seek to the
start of the current sector, store the freshly allocated sector's index
there as the 4-byte big-endian chain pointer, advance to the start of the
new sector and recurse with the remaining bytes; otherwise write the whole
buffer at the cursor.  `ns` lists the sectors the allocator hands out, in
order, so consecutive chain pointers link them in write order. -/
def writeSpecTrace (pos sector : Nat) (ns : List Nat) (buf : List Nat) :
    List Ev :=
  if SECTOR_SIZE - pos % SECTOR_SIZE < buf.length then
    match ns with
    | [] => []
    | n :: rest =>
      Ev.write pos (buf.take (SECTOR_SIZE - pos % SECTOR_SIZE)) ::
        Ev.seek (sector * SECTOR_SIZE) ::
        Ev.write (sector * SECTOR_SIZE) (transform_u32_to_array_of_u8 n) ::
        Ev.seek (n * SECTOR_SIZE) ::
        writeSpecTrace (n * SECTOR_SIZE) n rest
          (buf.drop (SECTOR_SIZE - pos % SECTOR_SIZE))
  else [Ev.write pos buf]

/-- A concrete state for the `write_auto` witness: sector 0 allocated,
cursor and stream at byte 4 of sector 0, empty trace. -/
def ws0 : WState :=
  ⟨fun j => j == 0, 16384, 0, 4, 4, []⟩

/-- `ws0` after `write_auto` of the three bytes `[1, 2, 3]`. -/
def ws1 : WState :=
  ⟨fun j => j == 0, 16384, 0, 7, 7, [Ev.write 4 [1, 2, 3]]⟩

/-! ## Chain freeing (`free_auto`, lines 357-367) -/

/-- `free_auto(sector)`, exactly as in the source: read the chain pointer
stored at the head of the sector, stop after freeing the sector whose
pointer equals `MAX_SECTORS`, otherwise free the sector and recurse on the
pointer.  The storage is abstracted as the map `ptr` from sector index to
the pointer value stored at its head (the byte-level pointer decoding is
treated with claim C4); `sectors[sector] = false` with
`sector ≥ MAX_SECTORS` is out of bounds for the `[bool; MAX_SECTORS]`
array, a panic, modelled as `none`; `fuel` bounds the recursion depth of
the shallow embedding. -/
def free_auto (fuel : Nat) (ptr : Nat → Nat) (sectors : Nat → Bool)
    (sector : Nat) : Option (Nat → Bool) :=
  match fuel with
  | 0 => none
  | fuel + 1 =>
    let pointer := ptr sector
    if pointer = MAX_SECTORS then
      if sector < MAX_SECTORS then
        some (fun j => if j = sector then false else sectors j)
      else none
    else
      if sector < MAX_SECTORS then
        free_auto fuel ptr (fun j => if j = sector then false else sectors j)
          pointer
      else none

/-! ## Handle allocation (`create_handle`, lines 241-253) -/

/-- One slot of the `file_handles` table: cursor, open mode and descriptor
snapshot. -/
structure HandleSlot where
  current_position : Nat
  open_mode : OpenMode
  fdesc : FileDescriptor

/-- The `handle_usage` / `file_handles` tables. -/
structure HandleTable where
  handle_usage : Nat → Bool
  file_handles : Nat → HandleSlot

/-- `create_handle`, exactly as in the source: `i` starts at 0, is never
incremented, and the `return MAX_SECTORS` sits inside the loop body, so
the loop body returns on its first iteration (the loop is entered because
`MAX_OPEN_FILES > 0`): slot 0 is allocated when free, and otherwise the
sentinel `MAX_SECTORS` is returned with no slot allocated. -/
def create_handle (tbl : HandleTable) (fdesc : FileDescriptor)
    (mode : OpenMode) : Nat × HandleTable :=
  if !tbl.handle_usage 0 then
    (0,
      { handle_usage := fun j => if j = 0 then true else tbl.handle_usage j,
        file_handles := fun j =>
          if j = 0 then ⟨0, mode, fdesc⟩ else tbl.file_handles j })
  else
    (MAX_SECTORS, tbl)

/-- The error-initialised descriptor used for unused handle slots in
`FileSystem::new`. -/
def errDescr : FileDescriptor :=
  ⟨FileType.error, FileFlag.error, emptyPath, 0, false⟩

/-- A handle table whose slot 0 is in use and all other slots are free. -/
def handleTbl1 : HandleTable :=
  ⟨fun j => j == 0, fun _ => ⟨0, OpenMode.error, errDescr⟩⟩

/-! ## Formatting (`format_storage`, lines 577-597) -/

/-- `format_storage(storage, len)`, exactly as shipped: every validation
and initialization statement in its body is commented out, so it performs
no storage calls and returns `Ok(())` for every declared length.  The
result is paired with the (empty) trace of stream calls it makes. -/
def format_storage (len : Nat) : Except Unit Unit × List Ev :=
  (Except.ok (), [])

end SparkFS

namespace SparkFS

/-! ## Theorems: Path (claim C10) -/

theorem takeWhile_replicate_zero (k : Nat) :
    (List.replicate k 0).takeWhile (fun c : Nat => c != 0) = [] := by
  cases k <;> simp [List.replicate, List.takeWhile]

theorem takeWhile_append_replicate (p : List Nat) (k : Nat)
    (h : ∀ c ∈ p, c ≠ 0) :
    (p ++ List.replicate k 0).takeWhile (fun c : Nat => c != 0) = p := by
  induction p with
  | nil => exact takeWhile_replicate_zero k
  | cons a t ih =>
      have ha : (a != 0) = true := by
        simpa using h a (by simp)
      have ht : ∀ c ∈ t, c ≠ 0 := fun c hc => h c (by simp [hc])
      simp [List.takeWhile, ha, ih ht]

/-- C10: `Path::from_ascii_str(p)` succeeds exactly when `p` is at most
`MAX_PATH_LENGTH` bytes and has no zero byte, and in that case
`as_slice` recovers exactly `p`. -/
theorem path_from_ascii_spec (p : List Nat) :
    ((Path.from_ascii_str p).isSome ↔
      (p.length ≤ MAX_PATH_LENGTH ∧ ∀ c ∈ p, c ≠ 0))
    ∧ (∀ q, Path.from_ascii_str p = some q → q.as_slice = p) := by
  constructor
  · have hiff : (Path.from_ascii_str p).isSome ↔
        (p.length ≤ MAX_PATH_LENGTH && p.all (fun c => c != 0)) = true := by
      unfold Path.from_ascii_str
      split <;> simp_all
    rw [hiff, Bool.and_eq_true, List.all_eq_true]
    simp
  · intro q hq
    by_cases hcond :
        (p.length ≤ MAX_PATH_LENGTH && p.all (fun c => c != 0)) = true
    · have hz : ∀ c ∈ p, c ≠ 0 := by
        rw [Bool.and_eq_true, List.all_eq_true] at hcond
        intro c hc
        simpa using hcond.2 c hc
      have hq' : q = ⟨p ++ List.replicate (MAX_PATH_LENGTH - p.length) 0⟩ := by
        have hsome : Path.from_ascii_str p =
            some ⟨p ++ List.replicate (MAX_PATH_LENGTH - p.length) 0⟩ := by
          simp [Path.from_ascii_str, hcond]
        rw [hsome] at hq
        exact (Option.some_injective _ hq).symm
      subst hq'
      simpa [Path.as_slice] using takeWhile_append_replicate p _ hz
    · exfalso
      have hnone : Path.from_ascii_str p = none := by
        simp [Path.from_ascii_str, hcond]
      simp [hnone] at hq

/-- Witness for C10 at the concrete input `[97]`. -/
theorem path_from_ascii_spec_witness :
    Path.from_ascii_str [97] = some ⟨97 :: List.replicate 254 0⟩ ∧
      Path.as_slice ⟨97 :: List.replicate 254 0⟩ = [97] := by
  refine ⟨rfl, ?_⟩
  exact (path_from_ascii_spec [97]).2 _ rfl

/-! ## Theorems: u32 transforms (claim C4) -/

/-- C4 fails on the code: the decoder combines the shifted bytes with
bitwise AND instead of OR, so decoding the encoding of `1` yields `0`,
not `1`.  (The encoder itself is big-endian as claimed.)  -/
theorem u32_roundtrip_bug :
    transform_u32_to_array_of_u8 1 = [0, 0, 0, 1] ∧
      transform_array_of_u8_to_u32 (transform_u32_to_array_of_u8 1) = 0 := by
  constructor <;> rfl

/-! ## Theorems: open_file admission (claim C1) -/

/-- C1 fails on the code for mode `Append`: the `match` in `open_file` has
no arm for `append`, so an `Append` open of a fully unlocked file is not
admitted (modelled as `none`), while the same descriptor is admitted for
`Write` with the write lock set, as the claim describes. -/
theorem open_file_append_unhandled :
    open_file_locks OpenMode.append
        ⟨FileType.default, FileFlag.readwrite, emptyPath, 0, false⟩ = none ∧
      open_file_locks OpenMode.write
        ⟨FileType.default, FileFlag.readwrite, emptyPath, 0, false⟩ =
        some (.ok ⟨FileType.default, FileFlag.readwrite, emptyPath, 0, true⟩) :=
  ⟨rfl, rfl⟩

/-! ## Theorems: header codec round trip (claim C3) -/

/-- C3 as stated fails on the code: the encoded record contains no
write-lock byte (and no end position), so two descriptors differing only
in `writelock` produce the same record, and no decoder can recover the
write-lock state from it. -/
theorem header_roundtrip_counterexample :
    encode_fd ⟨FileType.folder, FileFlag.special, emptyPath, 0, true⟩ =
        encode_fd ⟨FileType.folder, FileFlag.special, emptyPath, 0, false⟩ ∧
      (⟨FileType.folder, FileFlag.special, emptyPath, 0, true⟩ :
          FileDescriptor) ≠
        ⟨FileType.folder, FileFlag.special, emptyPath, 0, false⟩ := by
  refine ⟨rfl, fun h => ?_⟩
  exact Bool.noConfusion (congrArg FileDescriptor.writelock h)

/-- C3 amended: for every descriptor whose type and flag are real variants
and whose name buffer has the fixed width, reading the header back from
the record written by `create_fd` / `write_header` recovers the file type,
file flag and name buffer, and decodes the reserved byte (always written
as `0`) as the active-lock count; end position and write-lock state are
not part of the record. -/
theorem header_roundtrip_amended (ft : FileType) (ff : FileFlag)
    (name : Path) (hft : ft ≠ FileType.error) (hff : ff ≠ FileFlag.error)
    (hname : name.buf.length = MAX_PATH_LENGTH) :
    read_header (create_fd_record ft ff name) = some ⟨ft, ff, name.buf, 0⟩ := by
  have htake : (name.buf).take MAX_PATH_LENGTH = name.buf := by
    rw [← hname]
    exact List.take_length name.buf
  cases ft <;> cases ff <;>
    simp_all [read_header, create_fd_record, byteToFileType, byteToFileFlag,
      FileType.toByte, FileFlag.toByte, Path.raw_buf, FD_MAGIC_NUMBER]

/-! ## Theorems: sector allocator (claim C7) -/

theorem gvsScan_some_aux (sectors : Nat → Bool) (capacity : Nat) :
    ∀ n i k, min MAX_SECTORS (capacity / SECTOR_SIZE) - i ≤ n →
      gvsScan sectors capacity i = some k →
      i ≤ k ∧ k < MAX_SECTORS ∧ k < capacity / SECTOR_SIZE ∧
        sectors k = false ∧ ∀ j, i ≤ j → j < k → sectors j = true := by
  intro n
  induction n with
  | zero =>
      intro i k hn h
      rw [gvsScan.eq_def] at h
      split at h
      case isTrue hi => exact absurd (Nat.lt_min.2 hi) (by omega)
      case isFalse hi => exact absurd h (by simp)
  | succ n ih =>
      intro i k hn h
      rw [gvsScan.eq_def] at h
      split at h
      case isTrue hi =>
        by_cases hs : sectors i
        · rw [if_pos hs] at h
          obtain ⟨h1, h2, h3, h4, h5⟩ :=
            ih (i + 1) k (by have := Nat.lt_min.2 hi; omega) h
          refine ⟨by omega, h2, h3, h4, ?_⟩
          intro j hj1 hj2
          rcases Nat.eq_or_lt_of_le hj1 with hj | hj
          · exact hj ▸ hs
          · exact h5 j hj hj2
        · rw [if_neg hs] at h
          obtain rfl : i = k := by simpa using h
          exact ⟨Nat.le_refl _, hi.1, hi.2, by simpa using hs,
            fun j hj1 hj2 => absurd hj1 (by omega)⟩
      case isFalse hi =>
        exact absurd h (by simp)

theorem gvsScan_none_aux (sectors : Nat → Bool) (capacity : Nat) :
    ∀ n i, min MAX_SECTORS (capacity / SECTOR_SIZE) - i ≤ n →
      (gvsScan sectors capacity i = none ↔
        ∀ j, i ≤ j → j < MAX_SECTORS → j < capacity / SECTOR_SIZE →
          sectors j = true) := by
  intro n
  induction n with
  | zero =>
      intro i hn
      rw [gvsScan.eq_def]
      split
      case isTrue hi => exact absurd (Nat.lt_min.2 hi) (by omega)
      case isFalse hi =>
        refine ⟨fun _ j hj1 hj2 hj3 => ?_, fun _ => rfl⟩
        exact absurd ⟨Nat.lt_of_le_of_lt hj1 hj2,
          Nat.lt_of_le_of_lt hj1 hj3⟩ hi
  | succ n ih =>
      intro i hn
      rw [gvsScan.eq_def]
      split
      case isTrue hi =>
        by_cases hs : sectors i
        · rw [if_pos hs,
            ih (i + 1) (by have := Nat.lt_min.2 hi; omega)]
          constructor
          · intro h j hj1 hj2 hj3
            rcases Nat.eq_or_lt_of_le hj1 with hj | hj
            · exact hj ▸ hs
            · exact h j hj hj2 hj3
          · intro h j hj1 hj2 hj3
            exact h j (by omega) hj2 hj3
        · rw [if_neg hs]
          constructor
          · intro h
            exact absurd h (by simp)
          · intro h
            exact absurd (h i (Nat.le_refl _) hi.1 hi.2) hs
      case isFalse hi =>
        refine ⟨fun _ j hj1 hj2 hj3 => ?_, fun _ => rfl⟩
        exact absurd ⟨Nat.lt_of_le_of_lt hj1 hj2,
          Nat.lt_of_le_of_lt hj1 hj3⟩ hi

/-- C7: `get_valid_sector` scans candidate indices in increasing order from
0 up to `min(MAX_SECTORS, capacity / SECTOR_SIZE)`, returns the first index
not marked in use and marks it in use; it fails exactly when every
candidate index is in use; and whenever sector 0 is marked in use (as it
is from initialization) it never hands out sector 0. -/
theorem get_valid_sector_spec (sectors : Nat → Bool) (capacity : Nat) :
    (∀ i sectors', get_valid_sector sectors capacity = some (i, sectors') →
        sectors i = false ∧ i < MAX_SECTORS ∧ i < capacity / SECTOR_SIZE ∧
          (∀ j, j < i → sectors j = true) ∧
          sectors' i = true ∧ (∀ j, j ≠ i → sectors' j = sectors j) ∧
          (sectors 0 = true → i ≠ 0))
    ∧ (get_valid_sector sectors capacity = none ↔
        ∀ j, j < MAX_SECTORS → j < capacity / SECTOR_SIZE →
          sectors j = true) := by
  constructor
  · intro i sectors' h
    unfold get_valid_sector at h
    cases hscan : gvsScan sectors capacity 0 with
    | none => rw [hscan] at h; exact absurd h (by simp)
    | some k =>
        rw [hscan] at h
        simp only [Option.some_inj, Prod.mk.injEq] at h
        obtain ⟨rfl, hupd⟩ := h
        subst hupd
        obtain ⟨_, h2, h3, h4, h5⟩ :=
          gvsScan_some_aux sectors capacity _ 0 k (Nat.le_refl _) hscan
        refine ⟨h4, h2, h3, fun j hj => h5 j (Nat.zero_le _) hj, by simp,
          fun j hj => by simp [hj], ?_⟩
        intro h0 hk0
        rw [hk0] at h4
        rw [h0] at h4
        exact Bool.noConfusion h4
  · unfold get_valid_sector
    cases hscan : gvsScan sectors capacity 0 with
    | none =>
        refine ⟨fun _ j hj2 hj3 => ?_, fun _ => rfl⟩
        exact (gvsScan_none_aux sectors capacity _ 0 (Nat.le_refl _)).1
          hscan j (Nat.zero_le _) hj2 hj3
    | some k =>
        constructor
        · intro h
          exact absurd h (by simp)
        · intro h
          obtain ⟨_, h2, h3, h4, _⟩ :=
            gvsScan_some_aux sectors capacity _ 0 k (Nat.le_refl _) hscan
          rw [h k h2 h3] at h4
          exact absurd h4 (by simp)

/-- Witness for C7: with only sector 0 in use and capacity for 4 sectors,
the allocator hands out sector 1 and marks it. -/
theorem get_valid_sector_spec_witness :
    get_valid_sector sectors0 16384 = some (1, sectors0') ∧
      (sectors0 1 = false ∧ 1 < MAX_SECTORS ∧ 1 < 16384 / SECTOR_SIZE ∧
        (∀ j, j < 1 → sectors0 j = true) ∧ sectors0' 1 = true ∧
        (∀ j, j ≠ 1 → sectors0' j = sectors0 j) ∧
        (sectors0 0 = true → 1 ≠ 0)) := by
  have hscan : gvsScan sectors0 16384 0 = some 1 := by
    rw [gvsScan.eq_def]
    norm_num [sectors0, MAX_SECTORS, SECTOR_SIZE]
    rw [gvsScan.eq_def]
    norm_num [sectors0, MAX_SECTORS, SECTOR_SIZE]
  have hgvs : get_valid_sector sectors0 16384 = some (1, sectors0') := by
    unfold get_valid_sector
    rw [hscan]
    rfl
  exact ⟨hgvs, (get_valid_sector_spec sectors0 16384).1 1 sectors0' hgvs⟩

/-! ## Theorems: lock protocol (claim C2) -/

theorem countW_cons_read (l : List OpenMode) :
    countW (OpenMode.read :: l) = countW l := by
  simp [countW, List.countP_cons, writerMode]

theorem countW_cons_rw (l : List OpenMode) :
    countW (OpenMode.readwrite :: l) = countW l + 1 := by
  simp [countW, List.countP_cons, writerMode]

theorem countW_cons_write (l : List OpenMode) :
    countW (OpenMode.write :: l) = countW l + 1 := by
  simp [countW, List.countP_cons, writerMode]

theorem countR_cons_read (l : List OpenMode) :
    countR (OpenMode.read :: l) = countR l + 1 := by
  simp [countR, List.countP_cons, readerMode]

theorem countR_cons_rw (l : List OpenMode) :
    countR (OpenMode.readwrite :: l) = countR l := by
  simp [countR, List.countP_cons, readerMode]

theorem countR_cons_write (l : List OpenMode) :
    countR (OpenMode.write :: l) = countR l := by
  simp [countR, List.countP_cons, readerMode]

theorem countRW_cons_read (l : List OpenMode) :
    countRW (OpenMode.read :: l) = countRW l := by
  simp [countRW, List.countP_cons, rwMode]

theorem countRW_cons_rw (l : List OpenMode) :
    countRW (OpenMode.readwrite :: l) = countRW l + 1 := by
  simp [countRW, List.countP_cons, rwMode]

theorem countRW_cons_write (l : List OpenMode) :
    countRW (OpenMode.write :: l) = countRW l := by
  simp [countRW, List.countP_cons, rwMode]

theorem countW_mid_read (pre post : List OpenMode) :
    countW (pre ++ OpenMode.read :: post) = countW (pre ++ post) := by
  simp [countW, List.countP_append, List.countP_cons, writerMode]

theorem countW_mid_rw (pre post : List OpenMode) :
    countW (pre ++ OpenMode.readwrite :: post) = countW (pre ++ post) + 1 := by
  simp [countW, List.countP_append, List.countP_cons, writerMode]
  omega

theorem countW_mid_write (pre post : List OpenMode) :
    countW (pre ++ OpenMode.write :: post) = countW (pre ++ post) + 1 := by
  simp [countW, List.countP_append, List.countP_cons, writerMode]
  omega

theorem countR_mid_read (pre post : List OpenMode) :
    countR (pre ++ OpenMode.read :: post) = countR (pre ++ post) + 1 := by
  simp [countR, List.countP_append, List.countP_cons, readerMode]
  omega

theorem countR_mid_rw (pre post : List OpenMode) :
    countR (pre ++ OpenMode.readwrite :: post) = countR (pre ++ post) := by
  simp [countR, List.countP_append, List.countP_cons, readerMode]

theorem countR_mid_write (pre post : List OpenMode) :
    countR (pre ++ OpenMode.write :: post) = countR (pre ++ post) := by
  simp [countR, List.countP_append, List.countP_cons, readerMode]

theorem countRW_mid_read (pre post : List OpenMode) :
    countRW (pre ++ OpenMode.read :: post) = countRW (pre ++ post) := by
  simp [countRW, List.countP_append, List.countP_cons, rwMode]

theorem countRW_mid_rw (pre post : List OpenMode) :
    countRW (pre ++ OpenMode.readwrite :: post) = countRW (pre ++ post) + 1 := by
  simp [countRW, List.countP_append, List.countP_cons, rwMode]
  omega

theorem countRW_mid_write (pre post : List OpenMode) :
    countRW (pre ++ OpenMode.write :: post) = countRW (pre ++ post) := by
  simp [countRW, List.countP_append, List.countP_cons, rwMode]

theorem lockInv_step {s t : FsState} (h : FsStep s t) (hs : LockInv s) :
    LockInv t := by
  obtain ⟨i1, i2, i3, i4, i5⟩ := hs
  cases h with
  | open_ok m d' hol =>
      cases m
      case read =>
        simp only [open_file_locks] at hol
        split at hol
        case isFalse hwl => exact absurd hol (by simp)
        case isTrue hwl =>
          have hwl' : s.descr.writelock = false := by simpa using hwl
          have hd : d' =
              { s.descr with active_locks := s.descr.active_locks + 1 } := by
            simp only [Option.some_inj, Except.ok.injEq] at hol
            exact hol.symm
          subst hd
          have hw0 : countW s.handles = 0 := by
            rcases Nat.eq_or_lt_of_le i1 with h1 | h1
            · exact absurd (i2.2 h1) (by simp [hwl'])
            · omega
          refine ⟨?_, ?_, ?_, ?_, ?_⟩
          · show countW (OpenMode.read :: s.handles) ≤ 1
            rw [countW_cons_read]
            exact i1
          · show s.descr.writelock = true ↔
              countW (OpenMode.read :: s.handles) = 1
            rw [countW_cons_read, hwl']
            simp [hw0]
          · show countR (OpenMode.read :: s.handles) +
                countRW (OpenMode.read :: s.handles) ≤
                s.descr.active_locks + 1
            rw [countR_cons_read, countRW_cons_read]
            omega
          · show countW (OpenMode.read :: s.handles) = 1 →
              countR (OpenMode.read :: s.handles) = 0
            rw [countW_cons_read, countR_cons_read]
            intro hA
            omega
          · intro m' hm'
            rcases List.mem_cons.1 hm' with hm' | hm'
            · exact Or.inl hm'
            · exact i5 m' hm'
      case readwrite =>
        simp only [open_file_locks] at hol
        split at hol
        case isTrue hwl => exact absurd hol (by simp)
        case isFalse hwl =>
          split at hol
          case isTrue hal => exact absurd hol (by simp)
          case isFalse hal =>
            have hwl' : s.descr.writelock = false := by simpa using hwl
            have ha0 : s.descr.active_locks = 0 := by omega
            have hd : d' = { s.descr with
                active_locks := s.descr.active_locks + 1,
                writelock := true } := by
              simp only [Option.some_inj, Except.ok.injEq] at hol
              exact hol.symm
            subst hd
            have hr0 : countR s.handles = 0 := by omega
            have hrw0 : countRW s.handles = 0 := by omega
            have hw0 : countW s.handles = 0 := by
              rcases Nat.eq_or_lt_of_le i1 with h1 | h1
              · exact absurd (i2.2 h1) (by simp [hwl'])
              · omega
            refine ⟨?_, ?_, ?_, ?_, ?_⟩
            · show countW (OpenMode.readwrite :: s.handles) ≤ 1
              rw [countW_cons_rw]
              omega
            · show (true : Bool) = true ↔
                countW (OpenMode.readwrite :: s.handles) = 1
              rw [countW_cons_rw]
              simp [hw0]
            · show countR (OpenMode.readwrite :: s.handles) +
                  countRW (OpenMode.readwrite :: s.handles) ≤
                  s.descr.active_locks + 1
              rw [countR_cons_rw, countRW_cons_rw]
              omega
            · show countW (OpenMode.readwrite :: s.handles) = 1 →
                countR (OpenMode.readwrite :: s.handles) = 0
              rw [countW_cons_rw, countR_cons_rw]
              intro hA
              exact hr0
            · intro m' hm'
              rcases List.mem_cons.1 hm' with hm' | hm'
              · exact Or.inr (Or.inl hm')
              · exact i5 m' hm'
      case write =>
        simp only [open_file_locks] at hol
        split at hol
        case isTrue hwl => exact absurd hol (by simp)
        case isFalse hwl =>
          split at hol
          case isTrue hal => exact absurd hol (by simp)
          case isFalse hal =>
            have hwl' : s.descr.writelock = false := by simpa using hwl
            have ha0 : s.descr.active_locks = 0 := by omega
            have hd : d' = { s.descr with writelock := true } := by
              simp only [Option.some_inj, Except.ok.injEq] at hol
              exact hol.symm
            subst hd
            have hr0 : countR s.handles = 0 := by omega
            have hrw0 : countRW s.handles = 0 := by omega
            have hw0 : countW s.handles = 0 := by
              rcases Nat.eq_or_lt_of_le i1 with h1 | h1
              · exact absurd (i2.2 h1) (by simp [hwl'])
              · omega
            refine ⟨?_, ?_, ?_, ?_, ?_⟩
            · show countW (OpenMode.write :: s.handles) ≤ 1
              rw [countW_cons_write]
              omega
            · show (true : Bool) = true ↔
                countW (OpenMode.write :: s.handles) = 1
              rw [countW_cons_write]
              simp [hw0]
            · show countR (OpenMode.write :: s.handles) +
                  countRW (OpenMode.write :: s.handles) ≤
                  s.descr.active_locks
              rw [countR_cons_write, countRW_cons_write]
              omega
            · show countW (OpenMode.write :: s.handles) = 1 →
                countR (OpenMode.write :: s.handles) = 0
              rw [countW_cons_write, countR_cons_write]
              intro hA
              exact hr0
            · intro m' hm'
              rcases List.mem_cons.1 hm' with hm' | hm'
              · exact Or.inr (Or.inr hm')
              · exact i5 m' hm'
      case append => simp [open_file_locks] at hol
      case overwrite => simp [open_file_locks] at hol
      case error => simp [open_file_locks] at hol
  | close m pre post hmem =>
      have hmm : m = OpenMode.read ∨ m = OpenMode.readwrite ∨
          m = OpenMode.write := i5 m (by simp [hmem])
      have g5 : ∀ m' ∈ pre ++ post, m' = OpenMode.read ∨
          m' = OpenMode.readwrite ∨ m' = OpenMode.write := by
        intro m' hm'
        refine i5 m' ?_
        rw [hmem]
        rcases List.mem_append.1 hm' with h | h
        · exact List.mem_append.2 (Or.inl h)
        · exact List.mem_append.2 (Or.inr (List.mem_cons_of_mem _ h))
      rw [hmem] at i1 i2 i3 i4
      rcases hmm with rfl | rfl | rfl
      · rw [countW_mid_read] at i1 i2 i4
        rw [countR_mid_read, countRW_mid_read] at i3
        rw [countR_mid_read] at i4
        refine ⟨?_, ?_, ?_, ?_, g5⟩
        · exact i1
        · show s.descr.writelock = true ↔ countW (pre ++ post) = 1
          exact i2
        · show countR (pre ++ post) + countRW (pre ++ post) ≤
              s.descr.active_locks - 1
          omega
        · intro hA
          have := i4 hA
          omega
      · rw [countW_mid_rw] at i1 i2 i4
        rw [countR_mid_rw, countRW_mid_rw] at i3
        rw [countR_mid_rw] at i4
        have hA0 : countW (pre ++ post) = 0 := by omega
        refine ⟨?_, ?_, ?_, ?_, ?_⟩
        · show countW (pre ++ post) ≤ 1
          omega
        · show (false : Bool) = true ↔ countW (pre ++ post) = 1
          refine ⟨fun h => absurd h (by simp), fun h => absurd h (by omega)⟩
        · show countR (pre ++ post) + countRW (pre ++ post) ≤
              s.descr.active_locks
          omega
        · show countW (pre ++ post) = 1 → countR (pre ++ post) = 0
          intro hA
          omega
        · exact g5
      · rw [countW_mid_write] at i1 i2 i4
        rw [countR_mid_write, countRW_mid_write] at i3
        rw [countR_mid_write] at i4
        have hA0 : countW (pre ++ post) = 0 := by omega
        refine ⟨?_, ?_, ?_, ?_, ?_⟩
        · show countW (pre ++ post) ≤ 1
          omega
        · show (false : Bool) = true ↔ countW (pre ++ post) = 1
          refine ⟨fun h => absurd h (by simp), fun h => absurd h (by omega)⟩
        · show countR (pre ++ post) + countRW (pre ++ post) ≤
              s.descr.active_locks
          omega
        · show countW (pre ++ post) = 1 → countR (pre ++ post) = 0
          intro hA
          omega
        · exact g5

/-- C2: along every sequence of `open_file` admissions and `close`
releases on one path, starting from a freshly stored descriptor, at most
one writer handle (`Write`/`ReadWrite`/`Append`) is outstanding at any
moment, no `Read` handle is outstanding while a writer is, and no writer
handle is outstanding while a `Read` handle is. -/
theorem lock_exclusivity (d0 : FileDescriptor) (s : FsState)
    (h0 : d0.active_locks = 0) (h1 : d0.writelock = false)
    (h : Relation.ReflTransGen FsStep ⟨d0, []⟩ s) :
    countW s.handles ≤ 1 ∧
      (1 ≤ countW s.handles → countR s.handles = 0) ∧
      (1 ≤ countR s.handles → countW s.handles = 0) := by
  have hinv : LockInv s := by
    induction h with
    | refl =>
        refine ⟨by simp [countW], ?_, by simp [countR, countRW, h0], ?_, ?_⟩
        · simp [countW, h1]
        · simp [countW]
        · simp
    | tail hab hbc ih => exact lockInv_step hbc ih
  obtain ⟨i1, i2, i3, i4, i5⟩ := hinv
  refine ⟨i1, ?_, ?_⟩
  · intro hW
    exact i4 (by omega)
  · intro hR
    rcases Nat.eq_or_lt_of_le i1 with h1 | h1
    · have := i4 h1
      omega
    · omega

/-- Witness for C2: the state reached by one successful `Write` open on a
fresh descriptor satisfies the exclusivity bounds. -/
theorem lock_exclusivity_witness :
    (wDescr0.active_locks = 0 ∧ wDescr0.writelock = false) ∧
      countW [OpenMode.write] ≤ 1 ∧
        (1 ≤ countW [OpenMode.write] → countR [OpenMode.write] = 0) ∧
        (1 ≤ countR [OpenMode.write] → countW [OpenMode.write] = 0) := by
  refine ⟨⟨rfl, rfl⟩, ?_⟩
  exact lock_exclusivity wDescr0 ⟨wDescr1, [OpenMode.write]⟩ rfl rfl
    (Relation.ReflTransGen.single
      (FsStep.open_ok ⟨wDescr0, []⟩ OpenMode.write wDescr1 rfl))

/-- Witness for the amended C3 at a concrete descriptor. -/
theorem header_roundtrip_amended_witness :
    (FileType.folder ≠ FileType.error ∧ FileFlag.special ≠ FileFlag.error ∧
        (emptyPath).buf.length = MAX_PATH_LENGTH) ∧
      read_header (create_fd_record FileType.folder FileFlag.special emptyPath) =
        some ⟨FileType.folder, FileFlag.special, emptyPath.buf, 0⟩ := by
  refine ⟨⟨by decide, by decide, by simp [emptyPath]⟩, ?_⟩
  exact header_roundtrip_amended FileType.folder FileFlag.special emptyPath
    (by decide) (by decide) (by simp [emptyPath])

/-! ## Theorems: sector-chain writes (claim C5) -/

theorem get_valid_sector_some_charac (sectors : Nat → Bool) (cap n : Nat)
    (f : Nat → Bool) (h : get_valid_sector sectors cap = some (n, f)) :
    sectors n = false ∧ f n = true ∧ ∀ j, j ≠ n → f j = sectors j := by
  unfold get_valid_sector at h
  cases hscan : gvsScan sectors cap 0 with
  | none => rw [hscan] at h; exact absurd h (by simp)
  | some k =>
      rw [hscan] at h
      simp only [Option.some_inj, Prod.mk.injEq] at h
      obtain ⟨rfl, hupd⟩ := h
      subst hupd
      obtain ⟨_, _, _, h4, _⟩ :=
        gvsScan_some_aux sectors cap _ 0 k (Nat.le_refl _) hscan
      exact ⟨h4, by simp, fun j hj => by simp [hj]⟩

theorem write_auto_spec_else (s s1 : WState) (buf : List Nat)
    (hsync : s.seek_pos = s.current_position)
    (hcond : ¬(SECTOR_SIZE - s.current_position % SECTOR_SIZE < buf.length))
    (h : write_auto s buf = some s1) :
    ∃ ns : List Nat,
      s1.log = s.log ++
          writeSpecTrace s.current_position s.current_sector ns buf ∧
        (∀ n ∈ ns, s.sectors n = false) ∧
        (∀ n ∈ ns, s1.sectors n = true) ∧
        ns.Nodup ∧
        s1.current_sector = ns.getLastD s.current_sector ∧
        s1.seek_pos = s1.current_position ∧
        (∀ j, s.sectors j = true → s1.sectors j = true) := by
  rw [write_auto.eq_def, dif_neg hcond] at h
  obtain rfl := (Option.some_inj.1 h).symm
  refine ⟨[], ?_, by simp, ?_, List.nodup_nil, ?_, ?_, ?_⟩
  · rw [writeSpecTrace.eq_def, if_neg hcond]
    simp [writeall, hsync]
  · simp
  · simp [writeall]
  · simp [writeall, hsync]
  · intro j hj
    simpa [writeall] using hj

theorem write_auto_spec_aux :
    ∀ (N : Nat) (buf : List Nat) (s s1 : WState), buf.length ≤ N →
      s.seek_pos = s.current_position →
      write_auto s buf = some s1 →
      ∃ ns : List Nat,
        s1.log = s.log ++
            writeSpecTrace s.current_position s.current_sector ns buf ∧
          (∀ n ∈ ns, s.sectors n = false) ∧
          (∀ n ∈ ns, s1.sectors n = true) ∧
          ns.Nodup ∧
          s1.current_sector = ns.getLastD s.current_sector ∧
          s1.seek_pos = s1.current_position ∧
          (∀ j, s.sectors j = true → s1.sectors j = true) := by
  intro N
  induction N with
  | zero =>
      intro buf s s1 hlen hsync h
      have hcond :
          ¬(SECTOR_SIZE - s.current_position % SECTOR_SIZE < buf.length) := by
        omega
      exact write_auto_spec_else s s1 buf hsync hcond h
  | succ N ih =>
      intro buf s s1 hlen hsync h
      by_cases hcond :
          SECTOR_SIZE - s.current_position % SECTOR_SIZE < buf.length
      · rw [write_auto.eq_def] at h
        simp only [dif_pos hcond] at h
        simp only [writeall, seekTo, write_shorthead] at h
        have hrem : 1 ≤ SECTOR_SIZE - s.current_position % SECTOR_SIZE := by
          have := Nat.mod_lt s.current_position
            (y := SECTOR_SIZE) (by decide)
          omega
        cases hgvs : get_valid_sector s.sectors s.capacity with
        | none =>
            rw [hgvs] at h
            exact absurd h (by simp)
        | some p =>
            obtain ⟨n, f⟩ := p
            rw [hgvs] at h
            obtain ⟨hfr, hfn, hfj⟩ :=
              get_valid_sector_some_charac s.sectors s.capacity n f hgvs
            obtain ⟨rest, htr, hfresh, hmark, hnodup, hlast, hsync1, hmono⟩ :=
              ih (buf.drop (SECTOR_SIZE - s.current_position % SECTOR_SIZE))
                _ s1 (by simp only [List.length_drop]; omega) rfl h
            refine ⟨n :: rest, ?_, ?_, ?_, ?_, ?_, hsync1, ?_⟩
            · rw [writeSpecTrace.eq_def, if_pos hcond]
              simp only [writeall, seekTo, write_shorthead, hsync] at htr ⊢
              rw [htr]
              simp [List.append_assoc]
            · intro m hm
              rcases List.mem_cons.1 hm with rfl | hm
              · exact hfr
              · have hfm : f m = false := by
                  simpa [writeall, seekTo, write_shorthead] using hfresh m hm
                by_cases hmn : m = n
                · rw [hmn] at hfm
                  rw [hfn] at hfm
                  exact absurd hfm (by simp)
                · rw [← hfj m hmn]
                  exact hfm
            · intro m hm
              rcases List.mem_cons.1 hm with rfl | hm
              · refine hmono m ?_
                simpa [writeall, seekTo, write_shorthead] using hfn
              · exact hmark m hm
            · refine List.nodup_cons.2 ⟨?_, hnodup⟩
              intro hmem
              have hfm : f n = false := by
                simpa [writeall, seekTo, write_shorthead] using hfresh n hmem
              rw [hfn] at hfm
              exact absurd hfm (by simp)
            · rw [hlast]
              show rest.getLastD n = (n :: rest).getLastD s.current_sector
              cases rest with
              | nil => rfl
              | cons r t => simp [List.getLastD]
            · intro j hj
              refine hmono j ?_
              simp only [writeall, seekTo, write_shorthead]
              by_cases hjn : j = n
              · simp [hjn, hfn]
              · rw [hfj j hjn]
                exact hj
      · exact write_auto_spec_else s s1 buf hsync hcond h

/-- C5: whenever `write_auto` succeeds starting from a state whose stream
position equals the cursor, the calls it makes on the storage are exactly
the trace the claim describes — write the prefix that fits at the cursor,
seek to the start of the current sector, store the freshly allocated
sector's index there as the 4-byte big-endian chain pointer, advance to
the start of the new sector, recurse with the remaining bytes — for the
list `ns` of sectors the allocator hands out in order (so every byte of
the buffer is written, and the sectors form a forward-linked chain in
write order); the allocated sectors are fresh, pairwise distinct, marked
in use afterwards, and the final current sector is the last of the chain. -/
theorem write_auto_trace_spec (buf : List Nat) (s s1 : WState)
    (hsync : s.seek_pos = s.current_position)
    (h : write_auto s buf = some s1) :
    ∃ ns : List Nat,
      s1.log = s.log ++
          writeSpecTrace s.current_position s.current_sector ns buf ∧
        (∀ n ∈ ns, s.sectors n = false) ∧
        (∀ n ∈ ns, s1.sectors n = true) ∧
        ns.Nodup ∧
        s1.current_sector = ns.getLastD s.current_sector ∧
        s1.seek_pos = s1.current_position ∧
        (∀ j, s.sectors j = true → s1.sectors j = true) :=
  write_auto_spec_aux buf.length buf s s1 (Nat.le_refl _) hsync h

/-- Witness for C5: a three-byte in-sector write from a concrete state. -/
theorem write_auto_trace_spec_witness :
    (ws0.seek_pos = ws0.current_position ∧
        write_auto ws0 [1, 2, 3] = some ws1) ∧
      ∃ ns : List Nat,
        ws1.log = ws0.log ++
            writeSpecTrace ws0.current_position ws0.current_sector ns
              [1, 2, 3] ∧
          (∀ n ∈ ns, ws0.sectors n = false) ∧
          (∀ n ∈ ns, ws1.sectors n = true) ∧
          ns.Nodup ∧
          ws1.current_sector = ns.getLastD ws0.current_sector ∧
          ws1.seek_pos = ws1.current_position ∧
          (∀ j, ws0.sectors j = true → ws1.sectors j = true) := by
  have hcond : ¬(SECTOR_SIZE - ws0.current_position % SECTOR_SIZE <
      ([1, 2, 3] : List Nat).length) := by decide
  have hw : write_auto ws0 [1, 2, 3] = some ws1 := by
    rw [write_auto.eq_def, dif_neg hcond]
    rfl
  exact ⟨⟨rfl, hw⟩, write_auto_trace_spec [1, 2, 3] ws0 ws1 rfl hw⟩

/-! ## Theorems: chain freeing (claim C6) -/

/-- C6 fails on the code: the chain terminator written by `write_header`
is the `U32_MAX` sentinel, but `free_auto` stops only at the value
`MAX_SECTORS`.  On a single-sector chain at sector 0 whose stored pointer
is the `U32_MAX` sentinel, `free_auto` never terminates at the sentinel:
whatever the recursion depth, it frees sector 0 and then recurses into
sector index `U32_MAX`, which is out of bounds for the
`[bool; MAX_SECTORS]` array (modelled as `none`), instead of returning
with exactly the chain's sector freed. -/
theorem free_auto_sentinel_bug :
    ∀ fuel : Nat,
      free_auto fuel (fun _ => U32_MAX) (fun _ => true) 0 = none := by
  intro fuel
  cases fuel with
  | zero => rfl
  | succ f =>
      have hstep : free_auto (f + 1) (fun _ => U32_MAX) (fun _ => true) 0 =
          free_auto f (fun _ => U32_MAX)
            (fun j => if j = 0 then false else true) U32_MAX := by
        rfl
      rw [hstep]
      cases f with
      | zero => rfl
      | succ f2 => rfl

/-! ## Theorems: handle allocation (claim C8) -/

/-- C8 fails on the code: with slot 0 in use and slot 1 free,
`create_handle` does not allocate the lowest free slot — the scan never
advances (`i` is not incremented and the exhaustion return sits inside
the loop body) — so it returns the exhaustion sentinel `MAX_SECTORS` and
leaves the table unchanged; `open_file` moreover wraps that sentinel in
`Ok` instead of failing with a `Conflict`-class error. -/
theorem create_handle_bug :
    handleTbl1.handle_usage 1 = false ∧
      create_handle handleTbl1 errDescr OpenMode.read =
        (MAX_SECTORS, handleTbl1) :=
  ⟨rfl, rfl⟩

/-! ## Theorems: formatting (claim C9) -/

/-- C9 fails on the code: `format_storage` accepts every declared length —
including 0, smaller than one sector — without error, and performs no
storage call at all, so no root directory header is written by it (the
root header is written by `FileSystem::new` instead). -/
theorem format_storage_noop :
    format_storage 0 = (Except.ok (), []) ∧
      ∀ len, format_storage len = (Except.ok (), []) :=
  ⟨rfl, fun _ => rfl⟩

end SparkFS
